import Mathlib

/-!
Verification of the gnss2tec-logger runtime pipeline.

Shallow embedding of the gnss2tec-logger source (Rust) in Lean 4.
Machine bytes are modelled as `Nat` with explicit `% 256` / `% 65536`
where the source relies on fixed-width wrapping; fallible code returns
`Except`; filesystem and subprocess effects are modelled as explicit
state passing over abstract directory states, driven by an environment
that fixes the outcome of each external step.
-/

namespace Gnss2Tec

/-! ## UBX packet encoder (src/main.rs: `ubx_checksum`, `build_ubx_packet`) -/

/-- One step of the UBX Fletcher-style checksum:
`ck_a = ck_a.wrapping_add(byte); ck_b = ck_b.wrapping_add(ck_a)` on `u8`. -/
def ubxChecksumStep (ck : Nat × Nat) (b : Nat) : Nat × Nat :=
  let a := (ck.1 + b) % 256
  (a, (ck.2 + a) % 256)

/-- `ubx_checksum(data)`: running pair of modulo-256 sums over `data`. -/
def ubx_checksum (data : List Nat) : Nat × Nat :=
  data.foldl ubxChecksumStep (0, 0)

/-- `build_ubx_packet(class, id, payload)`: sync bytes, class, id,
little-endian `u16` payload length, payload, then the two checksum bytes
computed over everything after the sync bytes. -/
def build_ubx_packet (cls id : Nat) (payload : List Nat) : List Nat :=
  let packet := [0xB5, 0x62, cls, id] ++
    [payload.length % 256, payload.length / 256 % 256] ++ payload
  let ck := ubx_checksum (packet.drop 2)
  packet ++ [ck.1, ck.2]

/-! ## Decimal formatting (model of Rust `format!("{n}")` for unsigned ints) -/

/-- Decimal digit to character, as produced by Rust integer formatting. -/
def decDigitChar (d : Nat) : Char :=
  Char.ofNat (48 + d % 10)

/-- Decimal digit sequence, most significant first, with structural fuel
(the fuel is enough whenever `n < fuel`). -/
def decCharsAux : Nat → Nat → List Char
  | 0, _ => []
  | fuel + 1, n =>
    if n < 10 then [decDigitChar n]
    else decCharsAux fuel (n / 10) ++ [decDigitChar (n % 10)]

/-- Decimal digit sequence of `n`, most significant first. -/
def decChars (n : Nat) : List Char :=
  decCharsAux (n + 1) n

/-- Decimal rendering of a `Nat`, the model of `format!("{n}")`. -/
def natDecimal (n : Nat) : String :=
  ⟨decChars n⟩

/-- Numeric value of a digit character. -/
def charToDigit (c : Char) : Nat :=
  c.toNat - 48

/-- Parse a digit-character list back to its value (proof tool for injectivity). -/
def decVal (cs : List Char) : Nat :=
  cs.foldl (fun a c => a * 10 + charToDigit c) 0

/-- Left-pad the decimal rendering of `n` with zeros to width `w`
(model of Rust `format!("{n:0w$}")` used for timestamp fields). -/
def padDecimal (w n : Nat) : String :=
  ⟨List.replicate (w - (decChars n).length) (Char.ofNat 48) ++ decChars n⟩

/-! ## String helpers over `.data` (models of the `str` operations used) -/

/-- Model of Rust `char::to_ascii_lowercase` on the characters this code meets. -/
def asciiLowerChar (c : Char) : Char :=
  if 65 ≤ c.toNat ∧ c.toNat ≤ 90 then Char.ofNat (c.toNat + 32) else c

/-- Model of Rust `str::to_ascii_lowercase`. -/
def asciiLower (s : String) : String :=
  ⟨s.data.map asciiLowerChar⟩

/-- Model of Rust `str::contains(pat)`: `pat` occurs as a substring. -/
def containsSub (s pat : String) : Bool :=
  decide (pat.data <:+: s.data)

/-- Model of Rust `str::ends_with(pat)`. -/
def endsWithStr (s pat : String) : Bool :=
  decide (pat.data <:+ s.data)

/-- Model of Rust `str::starts_with(pat)`. -/
def startsWithStr (s pat : String) : Bool :=
  decide (pat.data <+: s.data)

/-- Model of `str::strip_suffix(pat).unwrap_or(s)`. -/
def stripSuffixOr (s pat : String) : String :=
  if endsWithStr s pat then ⟨s.data.take (s.data.length - pat.data.length)⟩ else s

/-- Model of Rust `s.rsplit(sep).next()`: the segment after the last
separator, or the whole string when the separator is absent. -/
def lastSegAfter (sep : Char) (cs : List Char) : List Char :=
  cs.foldl (fun acc c => if c = sep then [] else acc ++ [c]) []

/-! ## Output classification
(src/commands/convert.rs: `classify_output_name`, `classify_rinex2_short_kind`,
`is_output_product_name`, `validate_hour_outputs`) -/

inductive OutputKind where
  | Observation
  | Navigation
  | Other
deriving DecidableEq, Repr

/-- `classify_rinex2_short_kind(lower_name)`: RINEX v2 short names,
optionally gzip-compressed, classified by the last letter of the final
extension. -/
def classify_rinex2_short_kind (lowerName : String) : Option OutputKind :=
  let trimmed := stripSuffixOr lowerName ".gz"
  let ext := lastSegAfter (Char.ofNat 46) trimmed.data
  match ext.getLast? with
  | none => none
  | some c =>
    if c = 'o' ∨ c = 'd' then some OutputKind.Observation
    else if c = 'n' ∨ c = 'g' ∨ c = 'l' ∨ c = 'p' ∨ c = 'q' then
      some OutputKind.Navigation
    else none

/-- `classify_output_name(name)`: ordered name-pattern rules across the
RINEX naming styles this pipeline produces. -/
def classify_output_name (name : String) : OutputKind :=
  let lower := asciiLower name
  if containsSub lower "_navset.tar.gz" then OutputKind.Navigation
  else if containsSub lower "_mn." then OutputKind.Navigation
  else if containsSub lower "_mo." then OutputKind.Observation
  else if endsWithStr lower ".crx" || endsWithStr lower ".crx.gz" then OutputKind.Observation
  else if endsWithStr lower ".rnx" || endsWithStr lower ".rnx.gz" then OutputKind.Observation
  else (classify_rinex2_short_kind lower).getD OutputKind.Other

/-- The classification rules exactly as the specification words them, for
comparison with the source embedding `classify_output_name`: in order,
`_navset.tar.gz` or infix `_mn.` → Navigation; infix `_mo.` → Observation;
ending `.crx`/`.crx.gz` → Observation; ending `.rnx`/`.rnx.gz` (ambiguous) →
Observation; otherwise strip an optional `.gz` and classify by the last
letter of the final extension (`o`/`d` → Observation, `n`/`g`/`l`/`p`/`q` →
Navigation); every other name is Other. -/
def classifySpecRules (name : String) : OutputKind :=
  let lower := asciiLower name
  if containsSub lower "_navset.tar.gz" || containsSub lower "_mn." then
    OutputKind.Navigation
  else if containsSub lower "_mo." then OutputKind.Observation
  else if endsWithStr lower ".crx" || endsWithStr lower ".crx.gz" then
    OutputKind.Observation
  else if endsWithStr lower ".rnx" || endsWithStr lower ".rnx.gz" then
    OutputKind.Observation
  else
    match (lastSegAfter (Char.ofNat 46) (stripSuffixOr lower ".gz").data).getLast? with
    | none => OutputKind.Other
    | some c =>
      if c = 'o' ∨ c = 'd' then OutputKind.Observation
      else if c = 'n' ∨ c = 'g' ∨ c = 'l' ∨ c = 'p' ∨ c = 'q' then
        OutputKind.Navigation
      else OutputKind.Other

/-- `is_output_product_name(name)`. -/
def is_output_product_name (name : String) : Bool :=
  decide (classify_output_name name ≠ OutputKind.Other)

/-- `validate_hour_outputs(outputs, skip_nav, label)` over the file names of
the collected outputs: requires one Observation product, and one Navigation
product unless `skip_nav`. -/
def validate_hour_outputs (outputs : List String) (skipNav : Bool) (label : String) :
    Except String Unit :=
  let hasObs := outputs.any fun n => classify_output_name n = OutputKind.Observation
  let hasNav := outputs.any fun n => classify_output_name n = OutputKind.Navigation
  if !hasObs then
    Except.error ("no observation product generated for " ++ label ++
      "; collected outputs: " ++ String.intercalate ", " outputs)
  else if !skipNav && !hasNav then
    Except.error ("no navigation product generated for " ++ label ++
      "; collected outputs: " ++ String.intercalate ", " outputs)
  else
    Except.ok ()

/-! ## Collision-safe archive naming
(src/commands/convert.rs: `unique_destination_path`, `move_into_dir`).
A destination directory is modelled by the list of file names already
present in it. -/

/-- The disambiguated sibling name `format!("{base}.dup{idx}")`. -/
def dupName (base : String) (idx : Nat) : String :=
  base ++ ".dup" ++ natDecimal idx

/-- The `for idx in 1..` search of `unique_destination_path`, made total by
structural fuel; callers pass enough fuel for the search to succeed. -/
def findFreeIdx (existing : List String) (base : String) : Nat → Nat → Nat
  | 0, idx => idx
  | fuel + 1, idx =>
    if dupName base idx ∈ existing then findFreeIdx existing base fuel (idx + 1)
    else idx

/-- `unique_destination_path(dst_dir, file_name)`: the file name itself when
free, otherwise the first free `.dupN` sibling starting from `N = 1`. -/
def unique_destination_path (existing : List String) (fileName : String) : String :=
  if fileName ∈ existing then
    dupName fileName (findFreeIdx existing fileName (existing.length + 1) 1)
  else fileName

/-- `move_into_dir(src, dst_dir)`: returns the chosen destination name and
the directory contents after the move (rename, or copy + delete fallback —
both place the file at the same `unique_destination_path` target). -/
def move_into_dir (existing : List String) (srcName : String) : String × List String :=
  let dst := unique_destination_path existing srcName
  (dst, dst :: existing)

/-! ## UTC datetime model
(src/commands/run.rs and src/commands/convert.rs: `floor_to_hour`; the
`chrono` field setters `with_minute`/`with_second`/`with_nanosecond` are
embedded by their documented contract: return the updated timestamp when it
is a valid UTC datetime and `None` otherwise. `nano < 2_000_000_000` is
chrono's representation range, leap seconds included.) -/

structure UtcDateTime where
  year : Nat
  month : Nat
  day : Nat
  hour : Nat
  minute : Nat
  second : Nat
  nano : Nat
deriving DecidableEq, Repr

def isLeapYear (y : Nat) : Bool :=
  (y % 4 = 0 && y % 100 ≠ 0) || y % 400 = 0

def daysInMonth (y m : Nat) : Nat :=
  match m with
  | 1 => 31
  | 2 => if isLeapYear y then 29 else 28
  | 3 => 31
  | 4 => 30
  | 5 => 31
  | 6 => 30
  | 7 => 31
  | 8 => 31
  | 9 => 30
  | 10 => 31
  | 11 => 30
  | 12 => 31
  | _ => 0

def isValidUtc (d : UtcDateTime) : Bool :=
  decide (1 ≤ d.month ∧ d.month ≤ 12 ∧ 1 ≤ d.day ∧ d.day ≤ daysInMonth d.year d.month ∧
    d.hour < 24 ∧ d.minute < 60 ∧ d.second < 60 ∧ d.nano < 2000000000)

def with_minute (d : UtcDateTime) (m : Nat) : Option UtcDateTime :=
  let d2 := { d with minute := m }
  if isValidUtc d2 then some d2 else none

def with_second (d : UtcDateTime) (s : Nat) : Option UtcDateTime :=
  let d2 := { d with second := s }
  if isValidUtc d2 then some d2 else none

def with_nanosecond (d : UtcDateTime) (n : Nat) : Option UtcDateTime :=
  let d2 := { d with nano := n }
  if isValidUtc d2 then some d2 else none

/-- `floor_to_hour(dt)` before its final `expect`: the chained fallible field
updates. `none` models the panic branch of the `expect`. -/
def floor_to_hour (d : UtcDateTime) : Option UtcDateTime :=
  ((with_minute d 0).bind fun v => with_second v 0).bind fun v => with_nanosecond v 0

/-- The hour-bucket key `now.format("%Y%m%d_%H")`. -/
def formatHourKey (d : UtcDateTime) : String :=
  padDecimal 4 d.year ++ padDecimal 2 d.month ++ padDecimal 2 d.day ++ "_" ++
    padDecimal 2 d.hour

/-- The human-readable hour label `dt.format("%Y-%m-%d %H:00")`. -/
def formatHourLabel (d : UtcDateTime) : String :=
  padDecimal 4 d.year ++ "-" ++ padDecimal 2 d.month ++ "-" ++ padDecimal 2 d.day ++
    " " ++ padDecimal 2 d.hour ++ ":00"

/-! ## Hour input listing and `convert_hour_utc`
(src/commands/convert.rs: `list_hour_ubx_files`, `convert_hour_utc`).
The data directory is a list of entries with a name, a file/non-file flag
and a size in bytes. -/

structure DirEntry where
  name : String
  isFile : Bool
  size : Nat
deriving DecidableEq, Repr

/-- Model of `Path::extension` on a plain file name: the part after the last
dot, unless there is no dot or the only dot is the leading character. -/
def lastDotIdx (cs : List Char) : Option Nat :=
  cs.enum.foldl (fun acc p => if p.2 = Char.ofNat 46 then some p.1 else acc) none

def rustExtension (name : String) : Option String :=
  match lastDotIdx name.data with
  | none => none
  | some 0 => none
  | some i => some ⟨name.data.drop (i + 1)⟩

/-- Byte-wise lexicographic order on names, the order `files.sort()` uses. -/
def strLexLeb : List Char → List Char → Bool
  | [], _ => true
  | _ :: _, [] => false
  | a :: as, b :: bs =>
    if a.toNat < b.toNat then true
    else if b.toNat < a.toNat then false
    else strLexLeb as bs

def insertByLe (a : String) : List String → List String
  | [] => [a]
  | b :: bs => if strLexLeb a.data b.data then a :: b :: bs else b :: insertByLe a bs

/-- Stable insertion sort; agrees with `Vec::sort` on any list of names. -/
def sortByLe : List String → List String
  | [] => []
  | a :: as => insertByLe a (sortByLe as)

/-- `list_hour_ubx_files(data_dir, prefix)`: names of plain files with
extension `ubx` whose name starts with the hour key, sorted. -/
def list_hour_ubx_files (entries : List DirEntry) (pfx : String) : List String :=
  sortByLe ((entries.filter fun e =>
      e.isFile && rustExtension e.name = some "ubx" && startsWithStr e.name pfx).map
    (fun e => e.name))

/-- `convert_hour_utc(args, dt)` with the outcome of `process_hour` supplied
by the environment. Returns the `Result<bool>` (`true` = the hour was
processed) and whether `process_hour` was invoked at all. -/
def convert_hour_utc (entries : List DirEntry) (dt : UtcDateTime)
    (processOutcome : Except String Unit) : Except String Bool × Bool :=
  let ubxFiles := list_hour_ubx_files entries (formatHourKey dt)
  if ubxFiles.isEmpty then (Except.ok false, false)
  else
    match processOutcome with
    | Except.ok () => (Except.ok true, true)
    | Except.error e => (Except.error e, true)

/-! ## Run-mode rotation cycle (src/commands/run.rs: `run_mode` main loop,
rotation branch). One read cycle after bytes were handled: recompute the
hour key from `now`; rotate and enqueue a conversion job when it changed.
Writers carry numeric identities; the opened file identity is drawn from a
fresh counter. `none` models the `floor_to_hour` panic branch. -/

structure RunLoopState where
  activeHourKey : String
  activeHourStart : UtcDateTime
  writerId : Nat
  nextWriterId : Nat
deriving DecidableEq, Repr

structure RotationEffects where
  closedWriters : List Nat
  openedWriters : List Nat
  jobsSent : List UtcDateTime
  sendFailLogs : Nat
deriving DecidableEq, Repr

def noRotationEffects : RotationEffects :=
  { closedWriters := [], openedWriters := [], jobsSent := [], sendFailLogs := 0 }

/-- The rotation branch of one ingestion read cycle: compare
`now.format("%Y%m%d_%H")` with `active_hour_key`; on change, flush and close
the old writer, open a segment writer for the new hour (whose key comes from
`floor_to_hour(now)` via `open_new_log_file_for_time`), and send one
conversion job carrying the closed hour start. -/
def rotation_cycle (st : RunLoopState) (now : UtcDateTime) (chanOpen : Bool) :
    Option (RunLoopState × RotationEffects) :=
  let key := formatHourKey now
  if key = st.activeHourKey then some (st, noRotationEffects)
  else
    match floor_to_hour now with
    | none => none
    | some hourStart =>
      let st2 : RunLoopState :=
        { activeHourKey := formatHourKey hourStart
          activeHourStart := hourStart
          writerId := st.nextWriterId
          nextWriterId := st.nextWriterId + 1 }
      let eff : RotationEffects :=
        { closedWriters := [st.writerId]
          openedWriters := [st.nextWriterId]
          jobsSent := if chanOpen then [st.activeHourStart] else []
          sendFailLogs := if chanOpen then 0 else 1 }
      some (st2, eff)

/-! ## Conversion workflow for one hour
(src/commands/convert.rs: `process_hour`, `WorkspaceCleanup`). The scratch
workspace lives in an abstract filesystem state holding the directories
currently on disk; the outcome of each external step (merge, converter
invocations, output collection, name normalization, archive directory
creation, product moves, input removal) is fixed by an environment. -/

structure ConvFS where
  liveDirs : List String
deriving DecidableEq, Repr

structure ProcessHourEnv where
  createWsOk : Bool
  concatOk : Bool
  obsOk : Bool
  navOk : Bool
  workspaceOutputs : List String
  dataDirChanged : List String
  normalizeOk : Bool
  archiveMkdirOk : Bool
  moveOk : Bool
  removeUbxOk : Bool
deriving DecidableEq, Repr

/-- `WorkspaceCleanup::drop`: `fs::remove_dir_all` on the workspace path
(best-effort; removal in the abstract state always succeeds). -/
def workspaceCleanupDrop (wsPath : String) (fs : ConvFS) : ConvFS :=
  { fs with liveDirs := fs.liveDirs.filter fun d => d ≠ wsPath }

/-- The fallible conversion closure inside `process_hour`: merge inputs, run
the converter for observation (and navigation unless skipped), collect
candidate products from the workspace with the data-dir snapshot fallback,
normalize long names, then validate. -/
def processHourClosure (env : ProcessHourEnv) (skipNav : Bool) (label : String) :
    Except String (List String) :=
  if !env.concatOk then Except.error "concat failed"
  else if !env.obsOk then Except.error "convbin observation conversion failed"
  else if !skipNav && !env.navOk then Except.error "convbin navigation conversion failed"
  else
    let outputs :=
      if env.workspaceOutputs.isEmpty then env.dataDirChanged else env.workspaceOutputs
    if !env.normalizeOk then Except.error "renaming output product failed"
    else
      match validate_hour_outputs outputs skipNav label with
      | Except.error e => Except.error e
      | Except.ok () => Except.ok outputs

/-- `process_hour(args, dt, ubx_files)`: create the scratch workspace, guard
it with `WorkspaceCleanup`, run the conversion closure, then archive the
products and delete the inputs. Each `return` path passes the guard drop,
which removes the workspace directory. -/
def process_hour (env : ProcessHourEnv) (wsPath : String) (skipNav : Bool)
    (label : String) (fs : ConvFS) : Except String Unit × ConvFS :=
  if !env.createWsOk then (Except.error "creating hour workspace failed", fs)
  else
    let fs1 : ConvFS := { fs with liveDirs := wsPath :: fs.liveDirs }
    match processHourClosure env skipNav label with
    | Except.error e => (Except.error e, workspaceCleanupDrop wsPath fs1)
    | Except.ok _ =>
      if !env.archiveMkdirOk then
        (Except.error "creating archive path failed", workspaceCleanupDrop wsPath fs1)
      else if !env.moveOk then
        (Except.error "copying file to archive failed", workspaceCleanupDrop wsPath fs1)
      else if !env.removeUbxOk then
        (Except.error "removing file failed", workspaceCleanupDrop wsPath fs1)
      else (Except.ok (), workspaceCleanupDrop wsPath fs1)

/-! ## Conversion worker (src/commands/run.rs: `convert_one_hour`,
`conversion_worker_loop`). Per-job sub-step results come from an
environment; `convert_one_hour` matches the Rust function: it only logs. -/

structure HourJobEnv where
  lockResult : Except String Unit
  availability : Except String Unit
  convertResult : Except String Bool
deriving Repr

/-- `convert_one_hour(convert_args, hour)`: acquire the converter lock, check
availability, run `convert_hour_utc`; every failure is logged and swallowed.
The returned list is the log output; the Rust return type is `()`. -/
def convert_one_hour (env : HourJobEnv) (hour : UtcDateTime) : List String :=
  match env.lockResult with
  | Except.error e =>
    ["Conversion lock unavailable; skipped conversion for " ++ formatHourLabel hour ++
      ": " ++ e]
  | Except.ok () =>
    match env.availability with
    | Except.error e =>
      ["Converter unavailable; skipped conversion for " ++ formatHourLabel hour ++
        ": " ++ e]
    | Except.ok () =>
      match env.convertResult with
      | Except.error e =>
        ["Hour conversion failed for " ++ formatHourLabel hour ++
          " (logger continues): " ++ e]
      | Except.ok _ => []

/-- The job-consuming part of `conversion_worker_loop`: every received hour
is handed to `convert_one_hour` and the loop moves to the next job. -/
def conversion_worker_drain (env : UtcDateTime → HourJobEnv) :
    List UtcDateTime → List (UtcDateTime × List String)
  | [] => []
  | h :: rest => (h, convert_one_hour (env h) h) :: conversion_worker_drain env rest

/-! ## NMEA sentence collector
(src/shared/nmea.rs: `NmeaSentenceCollector::push_bytes`). Bytes are `Nat`;
emitted sentences are their byte lists (all retained bytes are ASCII, so
the `from_utf8` decode is the all-ASCII check). -/

def MAX_SENTENCE_LEN : Nat := 160

/-- `is_allowed_nmea_byte`. -/
def is_allowed_nmea_byte (b : Nat) : Bool :=
  b = 13 || (32 ≤ b && b ≤ 126)

structure Collector where
  capturing : Bool
  buf : List Nat
deriving DecidableEq, Repr

/-- `sentence.trim_end_matches('\r')`. -/
def stripTrailingCR (bs : List Nat) : List Nat :=
  ((bs.reverse).dropWhile fun b => b = 13).reverse

/-- One byte of `push_bytes`. -/
def collectorStep (acc : Collector × List (List Nat)) (b : Nat) :
    Collector × List (List Nat) :=
  let st := acc.1
  let out := acc.2
  if !st.capturing then
    if b = 36 then (⟨true, [36]⟩, out) else (st, out)
  else if b = 36 then (⟨true, [36]⟩, out)
  else if b = 10 then
    let res :=
      if st.buf.all fun x => x < 128 then
        let s := stripTrailingCR st.buf
        if s.head? = some 36 then out ++ [s] else out
      else out
    (⟨false, []⟩, res)
  else if !is_allowed_nmea_byte b then (⟨false, []⟩, out)
  else if MAX_SENTENCE_LEN ≤ st.buf.length then (⟨false, []⟩, out)
  else (⟨st.capturing, st.buf ++ [b]⟩, out)

/-- `push_bytes(bytes, out)` starting from collector state `st`. -/
def push_bytes (st : Collector) (bytes : List Nat) (out : List (List Nat)) :
    Collector × List (List Nat) :=
  bytes.foldl collectorStep (st, out)

/-! ## Helper lemmas -/

theorem toNat_ofNat_valid (n : Nat) (h : n.isValidChar) : (Char.ofNat n).toNat = n := by
  unfold Char.ofNat
  rw [dif_pos h]
  rfl

theorem asciiLowerChar_idem (c : Char) :
    asciiLowerChar (asciiLowerChar c) = asciiLowerChar c := by
  unfold asciiLowerChar
  by_cases h : 65 ≤ c.toNat ∧ c.toNat ≤ 90
  · rw [if_pos h]
    have hv : Nat.isValidChar (c.toNat + 32) := Or.inl (by omega)
    rw [toNat_ofNat_valid _ hv]
    rw [if_neg (by omega)]
  · rw [if_neg h, if_neg h]

theorem asciiLower_idem (s : String) : asciiLower (asciiLower s) = asciiLower s := by
  unfold asciiLower
  refine congrArg (fun l => (⟨l⟩ : String)) ?_
  show (s.data.map asciiLowerChar).map asciiLowerChar = s.data.map asciiLowerChar
  rw [List.map_map]
  exact List.map_congr_left fun a _ => asciiLowerChar_idem a

theorem classify_rinex2_getD (l : String) :
    (classify_rinex2_short_kind l).getD OutputKind.Other =
      match (lastSegAfter (Char.ofNat 46) (stripSuffixOr l ".gz").data).getLast? with
      | none => OutputKind.Other
      | some c =>
        if c = 'o' ∨ c = 'd' then OutputKind.Observation
        else if c = 'n' ∨ c = 'g' ∨ c = 'l' ∨ c = 'p' ∨ c = 'q' then
          OutputKind.Navigation
        else OutputKind.Other := by
  unfold classify_rinex2_short_kind
  cases h : (lastSegAfter (Char.ofNat 46) (stripSuffixOr l ".gz").data).getLast? with
  | none => simp only [h, Option.getD_none]
  | some c =>
    simp only [h]
    split_ifs <;> rfl

theorem ubx_checksum_append (xs ys : List Nat) :
    ubx_checksum (xs ++ ys) = ys.foldl ubxChecksumStep (ubx_checksum xs) := by
  simp [ubx_checksum, List.foldl_append]

/-- C1: `build_ubx_packet` produces sync ++ class ++ id ++ LE length ++ payload
++ checksum, and recomputing the checksum over the encoded packet minus the
2-byte sync and the trailing 2 checksum bytes reproduces those checksum bytes. -/
theorem build_ubx_packet_framing_and_checksum (cls id : Nat) (payload : List Nat) :
    build_ubx_packet cls id payload =
      [0xB5, 0x62, cls, id] ++
        [payload.length % 256, payload.length / 256 % 256] ++ payload ++
        [(ubx_checksum ([cls, id, payload.length % 256, payload.length / 256 % 256] ++ payload)).1,
         (ubx_checksum ([cls, id, payload.length % 256, payload.length / 256 % 256] ++ payload)).2] ∧
    ubx_checksum
        (((build_ubx_packet cls id payload).drop 2).dropLast.dropLast) =
      ubx_checksum ([cls, id, payload.length % 256, payload.length / 256 % 256] ++ payload) := by
  constructor
  · simp [build_ubx_packet]
  · have hdrop :
        ((build_ubx_packet cls id payload).drop 2) =
          ([cls, id, payload.length % 256, payload.length / 256 % 256] ++ payload) ++
            [(ubx_checksum ([cls, id, payload.length % 256, payload.length / 256 % 256] ++ payload)).1,
             (ubx_checksum ([cls, id, payload.length % 256, payload.length / 256 % 256] ++ payload)).2] := by
      simp [build_ubx_packet]
    rw [hdrop]
    have h2 :
        ∀ (l : List Nat) (a b : Nat), (l ++ [a, b]).dropLast.dropLast = l := by
      intro l a b
      have : l ++ [a, b] = (l ++ [a]) ++ [b] := by simp
      rw [this, List.dropLast_concat, List.dropLast_concat]
    rw [h2]

/-- C7: `classify_output_name` is a pure, case-insensitive name classifier
equal to the ordered rule list the specification states: `_navset.tar.gz` or
infix `_mn.` → Navigation; infix `_mo.` → Observation; ending `.crx`/`.crx.gz`
→ Observation; ending `.rnx`/`.rnx.gz` (the ambiguous case) → Observation;
otherwise, after stripping an optional `.gz`, the last letter of the final
extension decides (`o`/`d` Observation, `n`/`g`/`l`/`p`/`q` Navigation);
every other name is Other. -/
theorem classify_output_name_matches_spec_rules (name : String) :
    classify_output_name name = classifySpecRules name ∧
    classify_output_name (asciiLower name) = classify_output_name name := by
  constructor
  · unfold classify_output_name classifySpecRules
    simp only [Bool.or_eq_true]
    rw [classify_rinex2_getD]
    by_cases h1 : containsSub (asciiLower name) "_navset.tar.gz" = true <;>
      by_cases h2 : containsSub (asciiLower name) "_mn." = true <;>
        simp [h1, h2]
  · unfold classify_output_name
    rw [asciiLower_idem]

/-- C3: `validate_hour_outputs` succeeds exactly when some output classifies
as Observation and, unless `skip_nav`, some output classifies as Navigation;
the `_MO.`/`_MN.` pair validates with navigation required, and with the
`_MN.` name absent validation fails with an error message containing the
hour label. -/
theorem validate_hour_outputs_spec :
    (∀ (outs : List String) (sn : Bool) (lbl : String),
      validate_hour_outputs outs sn lbl = Except.ok () ↔
        ((outs.any fun n => classify_output_name n = OutputKind.Observation) = true ∧
          (sn = true ∨
            (outs.any fun n => classify_output_name n = OutputKind.Navigation) = true))) ∧
    validate_hour_outputs
      ["NJIT00USA_R_20240010900_01H_01S_MO.rnx", "NJIT00USA_R_20240010900_01H_MN.rnx"]
      false "2024-01-01 09:00" = Except.ok () ∧
    (∃ s1 s2,
      validate_hour_outputs ["NJIT00USA_R_20240010900_01H_01S_MO.rnx"] false
          "2024-01-01 09:00" =
        Except.error (s1 ++ "2024-01-01 09:00" ++ s2)) := by
  refine ⟨?_, rfl, ?_⟩
  · intro outs sn lbl
    unfold validate_hour_outputs
    by_cases hObs :
        (outs.any fun n => classify_output_name n = OutputKind.Observation) = true <;>
      by_cases hNav :
          (outs.any fun n => classify_output_name n = OutputKind.Navigation) = true <;>
        cases sn <;> simp [hObs, hNav]
  · exact ⟨"no navigation product generated for ",
      "; collected outputs: NJIT00USA_R_20240010900_01H_01S_MO.rnx", rfl⟩

theorem charToDigit_decDigitChar (d : Nat) (h : d < 10) :
    charToDigit (decDigitChar d) = d := by
  interval_cases d <;> decide

theorem decVal_append_digit (xs : List Char) (c : Char) :
    decVal (xs ++ [c]) = decVal xs * 10 + charToDigit c := by
  simp [decVal, List.foldl_append]

theorem decVal_decCharsAux (fuel : Nat) :
    ∀ n, n < fuel → decVal (decCharsAux fuel n) = n := by
  induction fuel with
  | zero => intro n h; omega
  | succ f ih =>
    intro n h
    by_cases h10 : n < 10
    · simp [decCharsAux, h10, decVal, charToDigit_decDigitChar n h10]
    · have hdiv : n / 10 < n := Nat.div_lt_self (by omega) (by omega)
      simp only [decCharsAux, if_neg h10]
      rw [decVal_append_digit, ih _ (by omega),
        charToDigit_decDigitChar _ (Nat.mod_lt _ (by omega))]
      omega

theorem decVal_decChars (n : Nat) : decVal (decChars n) = n :=
  decVal_decCharsAux (n + 1) n (by omega)

theorem natDecimal_inj {m n : Nat} (h : natDecimal m = natDecimal n) : m = n := by
  have hdata : decChars m = decChars n := congrArg String.data h
  have := congrArg decVal hdata
  rwa [decVal_decChars, decVal_decChars] at this

theorem dupName_inj (base : String) {i j : Nat} (h : dupName base i = dupName base j) :
    i = j := by
  unfold dupName at h
  have hdata := congrArg String.data h
  simp only [String.data_append] at hdata
  have h1 := List.append_cancel_left hdata
  have h2 : natDecimal i = natDecimal j := by
    cases hni : natDecimal i with
    | mk di =>
      cases hnj : natDecimal j with
      | mk dj =>
        have : di = dj := by
          have hi := congrArg String.data hni
          have hj := congrArg String.data hnj
          simp only at hi hj
          rw [hi, hj] at h1
          exact h1
        rw [this]
  exact natDecimal_inj h2

theorem exists_free_dup (existing : List String) (base : String) (start : Nat) :
    ∃ k, k < existing.length + 1 ∧ dupName base (start + k) ∉ existing := by
  by_contra hcon
  push_neg at hcon
  have hinj : Function.Injective fun k : Nat => dupName base (start + k) := by
    intro a b hab
    have := dupName_inj base hab
    omega
  have hsub :
      (Finset.range (existing.length + 1)).image (fun k => dupName base (start + k)) ⊆
        existing.toFinset := by
    intro x hx
    simp only [Finset.mem_image, Finset.mem_range] at hx
    obtain ⟨k, hk, rfl⟩ := hx
    exact List.mem_toFinset.mpr (hcon k hk)
  have hcard := Finset.card_le_card hsub
  rw [Finset.card_image_of_injective _ hinj, Finset.card_range] at hcard
  have := existing.toFinset_card_le
  omega

theorem findFreeIdx_spec (existing : List String) (base : String) :
    ∀ (fuel start : Nat), (∃ k, k < fuel ∧ dupName base (start + k) ∉ existing) →
      dupName base (findFreeIdx existing base fuel start) ∉ existing ∧
      start ≤ findFreeIdx existing base fuel start ∧
      ∀ m, start ≤ m → m < findFreeIdx existing base fuel start →
        dupName base m ∈ existing := by
  intro fuel
  induction fuel with
  | zero =>
    intro start h
    obtain ⟨k, hk, _⟩ := h
    omega
  | succ f ih =>
    intro start h
    by_cases hmem : dupName base start ∈ existing
    · have h2 : ∃ k, k < f ∧ dupName base (start + 1 + k) ∉ existing := by
        obtain ⟨k, hk, hfree⟩ := h
        cases k with
        | zero => exact absurd hmem (by simpa using hfree)
        | succ k2 =>
          refine ⟨k2, by omega, ?_⟩
          have heq : start + 1 + k2 = start + (k2 + 1) := by omega
          rw [heq]
          exact hfree
      have ihs := ih (start + 1) h2
      simp only [findFreeIdx, if_pos hmem]
      refine ⟨ihs.1, by omega, ?_⟩
      intro m hm1 hm2
      by_cases hms : m = start
      · rw [hms]; exact hmem
      · exact ihs.2.2 m (by omega) hm2
    · simp only [findFreeIdx, if_neg hmem]
      exact ⟨hmem, Nat.le_refl _, fun m hm1 hm2 => by omega⟩

/-- C6: `unique_destination_path` (hence `move_into_dir`) never targets an
existing file: it keeps the source file name when free, and otherwise picks
the `.dupN` sibling for the least `N ≥ 1` whose name is not yet present. -/
theorem unique_destination_path_no_overwrite (existing : List String) (fileName : String) :
    unique_destination_path existing fileName ∉ existing ∧
    (move_into_dir existing fileName).1 ∉ existing ∧
    (fileName ∉ existing → unique_destination_path existing fileName = fileName) ∧
    (fileName ∈ existing →
      ∃ N, 1 ≤ N ∧ unique_destination_path existing fileName = dupName fileName N ∧
        dupName fileName N ∉ existing ∧
        ∀ m, 1 ≤ m → m < N → dupName fileName m ∈ existing) := by
  by_cases hmem : fileName ∈ existing
  · have hex : ∃ k, k < existing.length + 1 ∧ dupName fileName (1 + k) ∉ existing :=
      exists_free_dup existing fileName 1
    have hspec := findFreeIdx_spec existing fileName (existing.length + 1) 1 hex
    have huniq :
        unique_destination_path existing fileName =
          dupName fileName (findFreeIdx existing fileName (existing.length + 1) 1) := by
      unfold unique_destination_path
      rw [if_pos hmem]
    refine ⟨by rw [huniq]; exact hspec.1, by
        show unique_destination_path existing fileName ∉ existing
        rw [huniq]; exact hspec.1,
      fun hcon => absurd hmem hcon, fun _ => ?_⟩
    exact ⟨findFreeIdx existing fileName (existing.length + 1) 1, hspec.2.1, huniq,
      hspec.1, hspec.2.2⟩
  · have huniq : unique_destination_path existing fileName = fileName := by
      unfold unique_destination_path
      rw [if_neg hmem]
    refine ⟨by rw [huniq]; exact hmem, by
        show unique_destination_path existing fileName ∉ existing
        rw [huniq]; exact hmem,
      fun _ => huniq, fun hcon => absurd hcon hmem⟩

theorem unique_destination_path_no_overwrite_witness :
    unique_destination_path ["a.txt", "a.txt.dup1"] "a.txt" ∉ ["a.txt", "a.txt.dup1"] ∧
    (∃ N, 1 ≤ N ∧
      unique_destination_path ["a.txt", "a.txt.dup1"] "a.txt" = dupName "a.txt" N ∧
      dupName "a.txt" N ∉ ["a.txt", "a.txt.dup1"] ∧
      ∀ m, 1 ≤ m → m < N → dupName "a.txt" m ∈ ["a.txt", "a.txt.dup1"]) :=
  ⟨(unique_destination_path_no_overwrite ["a.txt", "a.txt.dup1"] "a.txt").1,
    (unique_destination_path_no_overwrite ["a.txt", "a.txt.dup1"] "a.txt").2.2.2
      (by decide)⟩

theorem floor_to_hour_valid_eq (d : UtcDateTime) (h : isValidUtc d = true) :
    floor_to_hour d = some { d with minute := 0, second := 0, nano := 0 } := by
  simp only [isValidUtc, decide_eq_true_eq] at h
  have h1 : isValidUtc { d with minute := 0 } = true := by
    simp only [isValidUtc, decide_eq_true_eq]
    omega
  have h2 : isValidUtc { d with minute := 0, second := 0 } = true := by
    simp only [isValidUtc, decide_eq_true_eq]
    omega
  have h3 : isValidUtc { d with minute := 0, second := 0, nano := 0 } = true := by
    simp only [isValidUtc, decide_eq_true_eq]
    omega
  unfold floor_to_hour with_minute with_second with_nanosecond
  simp only [h1, h2, h3, if_true, Option.bind_some, Option.some_bind]

/-- C10: on every valid UTC datetime, `floor_to_hour` returns normally — the
`expect` branch is unreachable — and the result keeps the date and hour while
zeroing minute, second and nanosecond. -/
theorem floor_to_hour_never_panics (d : UtcDateTime) (h : isValidUtc d = true) :
    floor_to_hour d = some { d with minute := 0, second := 0, nano := 0 } ∧
    ∃ r, floor_to_hour d = some r ∧ r.year = d.year ∧ r.month = d.month ∧
      r.day = d.day ∧ r.hour = d.hour ∧ r.minute = 0 ∧ r.second = 0 ∧ r.nano = 0 := by
  refine ⟨floor_to_hour_valid_eq d h, ⟨{ d with minute := 0, second := 0, nano := 0 },
    floor_to_hour_valid_eq d h, rfl, rfl, rfl, rfl, rfl, rfl, rfl⟩⟩

theorem floor_to_hour_never_panics_witness :
    isValidUtc ⟨2024, 1, 1, 9, 30, 22, 5⟩ = true ∧
    floor_to_hour ⟨2024, 1, 1, 9, 30, 22, 5⟩ = some ⟨2024, 1, 1, 9, 0, 0, 0⟩ :=
  ⟨by decide, (floor_to_hour_never_panics ⟨2024, 1, 1, 9, 30, 22, 5⟩ (by decide)).1⟩

/-- C5: on a read cycle where the recomputed hour key differs from
`active_hour_key`, the loop closes exactly the one active writer, opens
exactly one new writer, moves the active-hour state to the new hour, and
sends exactly one conversion job carrying the start of the just-closed hour
(whose key is the old `active_hour_key`); a cycle with an unchanged key
closes nothing and sends nothing. -/
theorem rotation_cycle_spec (st : RunLoopState) (now : UtcDateTime)
    (hval : isValidUtc now = true)
    (hinv : st.activeHourKey = formatHourKey st.activeHourStart) :
    (formatHourKey now ≠ st.activeHourKey →
      rotation_cycle st now true =
        some
          ({ activeHourKey := formatHourKey now
             activeHourStart := { now with minute := 0, second := 0, nano := 0 }
             writerId := st.nextWriterId
             nextWriterId := st.nextWriterId + 1 },
           { closedWriters := [st.writerId]
             openedWriters := [st.nextWriterId]
             jobsSent := [st.activeHourStart]
             sendFailLogs := 0 }) ∧
      formatHourKey st.activeHourStart = st.activeHourKey) ∧
    (formatHourKey now = st.activeHourKey →
      rotation_cycle st now true = some (st, noRotationEffects)) := by
  constructor
  · intro hne
    refine ⟨?_, hinv.symm⟩
    unfold rotation_cycle
    rw [if_neg hne, floor_to_hour_valid_eq now hval]
    rfl
  · intro heq
    unfold rotation_cycle
    rw [if_pos heq]

theorem rotation_cycle_spec_witness :
    rotation_cycle
        { activeHourKey := "20240101_09", activeHourStart := ⟨2024, 1, 1, 9, 0, 0, 0⟩,
          writerId := 7, nextWriterId := 8 }
        ⟨2024, 1, 1, 10, 0, 0, 123⟩ true =
      some
        ({ activeHourKey := "20240101_10"
           activeHourStart := ⟨2024, 1, 1, 10, 0, 0, 0⟩
           writerId := 8
           nextWriterId := 9 },
         { closedWriters := [7]
           openedWriters := [8]
           jobsSent := [⟨2024, 1, 1, 9, 0, 0, 0⟩]
           sendFailLogs := 0 }) :=
  ((rotation_cycle_spec
      { activeHourKey := "20240101_09", activeHourStart := ⟨2024, 1, 1, 9, 0, 0, 0⟩,
        writerId := 7, nextWriterId := 8 }
      ⟨2024, 1, 1, 10, 0, 0, 123⟩ (by decide) (by decide)).1 (by decide)).1

theorem workspaceCleanupDrop_removes (wsPath : String) (fs : ConvFS) :
    wsPath ∉ (workspaceCleanupDrop wsPath fs).liveDirs := by
  unfold workspaceCleanupDrop
  intro hmem
  have := List.of_mem_filter hmem
  simp at this

/-- C2: whatever the outcome of the conversion attempt — success, validation
failure, converter failure, or an archive-stage failure — the scratch
workspace directory created for the attempt is no longer on disk when
`process_hour` returns. -/
theorem process_hour_removes_workspace (env : ProcessHourEnv) (wsPath : String)
    (skipNav : Bool) (label : String) (fs : ConvFS)
    (hcreate : env.createWsOk = true) :
    wsPath ∉ ((process_hour env wsPath skipNav label fs).2).liveDirs := by
  unfold process_hour
  rw [hcreate]
  simp only [Bool.not_true, Bool.false_eq_true, if_false]
  cases processHourClosure env skipNav label with
  | error e => exact workspaceCleanupDrop_removes wsPath _
  | ok outs => split_ifs <;> exact workspaceCleanupDrop_removes wsPath _

theorem process_hour_removes_workspace_witness :
    ({ createWsOk := true, concatOk := true, obsOk := true, navOk := false,
       workspaceOutputs := ["x_MO.rnx"], dataDirChanged := [], normalizeOk := true,
       archiveMkdirOk := true, moveOk := true,
       removeUbxOk := true } : ProcessHourEnv).createWsOk = true ∧
    "ws1" ∉
      ((process_hour
          { createWsOk := true, concatOk := true, obsOk := true, navOk := false,
            workspaceOutputs := ["x_MO.rnx"], dataDirChanged := [], normalizeOk := true,
            archiveMkdirOk := true, moveOk := true, removeUbxOk := true }
          "ws1" false "2024-01-01 09:00" ⟨["data", "ws1-other"]⟩).2).liveDirs :=
  ⟨rfl,
    process_hour_removes_workspace
      { createWsOk := true, concatOk := true, obsOk := true, navOk := false,
        workspaceOutputs := ["x_MO.rnx"], dataDirChanged := [], normalizeOk := true,
        archiveMkdirOk := true, moveOk := true, removeUbxOk := true }
      "ws1" false "2024-01-01 09:00" ⟨["data", "ws1-other"]⟩ rfl⟩

/-- C4: `convert_one_hour` never propagates an error — its Rust return type
is `()` and each sub-step failure only produces a log line — so the worker
loop consumes every queued job whatever the per-hour outcomes are, and a
failed hour never terminates the loop or ingestion. -/
theorem convert_one_hour_never_propagates (env : UtcDateTime → HourJobEnv)
    (jobs : List UtcDateTime) :
    (conversion_worker_drain env jobs).map Prod.fst = jobs ∧
    (conversion_worker_drain env jobs).length = jobs.length ∧
    ∀ j, j ∈ jobs → (j, convert_one_hour (env j) j) ∈ conversion_worker_drain env jobs := by
  induction jobs with
  | nil =>
    refine ⟨rfl, rfl, ?_⟩
    intro j hj
    cases hj
  | cons a rest ih =>
    refine ⟨?_, ?_, ?_⟩
    · simp [conversion_worker_drain, ih.1]
    · simp [conversion_worker_drain, ih.2.1]
    · intro j hj
      rw [List.mem_cons] at hj
      rcases hj with rfl | hj
      · exact List.mem_cons_self _ _
      · exact List.mem_cons_of_mem _ (ih.2.2 j hj)

theorem convert_one_hour_never_propagates_witness :
    (conversion_worker_drain
        (fun _ => ⟨Except.error "another instance is already running", Except.ok (),
          Except.ok true⟩)
        [⟨2024, 1, 1, 9, 0, 0, 0⟩, ⟨2024, 1, 1, 10, 0, 0, 0⟩]).map Prod.fst =
      [⟨2024, 1, 1, 9, 0, 0, 0⟩, ⟨2024, 1, 1, 10, 0, 0, 0⟩] ∧
    ((⟨2024, 1, 1, 9, 0, 0, 0⟩ : UtcDateTime),
        convert_one_hour
          ⟨Except.error "another instance is already running", Except.ok (),
            Except.ok true⟩ ⟨2024, 1, 1, 9, 0, 0, 0⟩) ∈
      conversion_worker_drain
        (fun _ => ⟨Except.error "another instance is already running", Except.ok (),
          Except.ok true⟩)
        [⟨2024, 1, 1, 9, 0, 0, 0⟩, ⟨2024, 1, 1, 10, 0, 0, 0⟩] :=
  ⟨(convert_one_hour_never_propagates _ _).1,
    (convert_one_hour_never_propagates _ _).2.2 _ (by simp)⟩

/-- C9 counterexample: for the hour 2024-01-01 09:00 whose only input segment
file `20240101_090000.ubx` exists but is empty (size 0), `convert_hour_utc`
does not skip the hour: it invokes `process_hour` (here succeeding) and
reports the hour as processed, against the claim that an hour whose input
files are not all non-empty is skipped with a not-processed result. -/
theorem convert_hour_utc_empty_file_counterexample :
    convert_hour_utc [⟨"20240101_090000.ubx", true, 0⟩] ⟨2024, 1, 1, 9, 0, 0, 0⟩
        (Except.ok ()) = (Except.ok true, true) ∧
    ¬(convert_hour_utc [⟨"20240101_090000.ubx", true, 0⟩] ⟨2024, 1, 1, 9, 0, 0, 0⟩
        (Except.ok ())).2 = false := by
  refine ⟨rfl, ?_⟩
  intro hcon
  have : true = false := hcon
  exact absurd this (by decide)

/-- C9 amended: `convert_hour_utc` skips the hour (returning `Ok(false)`
without invoking `process_hour`) exactly when no `.ubx` file with the hour
key prefix exists in the data directory; when at least one matching file
exists — regardless of size — the hour is handed to `process_hour`. -/
theorem convert_hour_utc_skips_iff_no_inputs (entries : List DirEntry)
    (dt : UtcDateTime) (outcome : Except String Unit) :
    ((list_hour_ubx_files entries (formatHourKey dt)).isEmpty = true →
      convert_hour_utc entries dt outcome = (Except.ok false, false)) ∧
    ((list_hour_ubx_files entries (formatHourKey dt)).isEmpty = false →
      (convert_hour_utc entries dt outcome).2 = true) := by
  unfold convert_hour_utc
  constructor
  · intro h
    rw [if_pos h]
  · intro h
    rw [if_neg (by simp [h])]
    cases outcome with
    | ok u => cases u; rfl
    | error e => rfl

theorem convert_hour_utc_skips_iff_no_inputs_witness :
    convert_hour_utc [] ⟨2024, 1, 1, 9, 0, 0, 0⟩ (Except.ok ()) =
      (Except.ok false, false) ∧
    (convert_hour_utc [⟨"20240101_091500.ubx", true, 0⟩] ⟨2024, 1, 1, 9, 0, 0, 0⟩
        (Except.ok ())).2 = true :=
  ⟨(convert_hour_utc_skips_iff_no_inputs [] ⟨2024, 1, 1, 9, 0, 0, 0⟩ (Except.ok ())).1
      (by decide),
    (convert_hour_utc_skips_iff_no_inputs [⟨"20240101_091500.ubx", true, 0⟩]
        ⟨2024, 1, 1, 9, 0, 0, 0⟩ (Except.ok ())).2 (by decide)⟩

theorem allowed_byte_lt_128 {b : Nat} (h : is_allowed_nmea_byte b = true) : b < 128 := by
  simp only [is_allowed_nmea_byte, Bool.or_eq_true, Bool.and_eq_true,
    decide_eq_true_eq] at h
  rcases h with h | h <;> omega

theorem collectorStep_capture_push (buf : List Nat) (out : List (List Nat)) (b : Nat)
    (hb : is_allowed_nmea_byte b = true) (h36 : b ≠ 36) (h10 : b ≠ 10)
    (hlen : buf.length < MAX_SENTENCE_LEN) :
    collectorStep (⟨true, buf⟩, out) b = (⟨true, buf ++ [b]⟩, out) := by
  have hle : ¬MAX_SENTENCE_LEN ≤ buf.length := by omega
  simp [collectorStep, hb, h36, h10, hle]

theorem push_bytes_capture_accum (bytes : List Nat) :
    ∀ (buf : List Nat) (out : List (List Nat)),
      (∀ b ∈ bytes, is_allowed_nmea_byte b = true ∧ b ≠ 36 ∧ b ≠ 10) →
      buf.length + bytes.length ≤ MAX_SENTENCE_LEN →
      push_bytes ⟨true, buf⟩ bytes out = (⟨true, buf ++ bytes⟩, out) := by
  induction bytes with
  | nil =>
    intro buf out _ _
    simp [push_bytes]
  | cons b rest ih =>
    intro buf out hall hlen
    obtain ⟨hb, h36, h10⟩ := hall b (by simp)
    have hstep := collectorStep_capture_push buf out b hb h36 h10 (by
      simp only [List.length_cons] at hlen
      omega)
    show (b :: rest).foldl collectorStep (⟨true, buf⟩, out) = _
    rw [List.foldl_cons, hstep]
    have hlen2 : (buf ++ [b]).length + rest.length ≤ MAX_SENTENCE_LEN := by
      rw [List.length_append]
      simp only [List.length_cons, List.length_nil] at hlen ⊢
      omega
    have hrest := ih (buf ++ [b]) out (fun x hx => hall x (by simp [hx])) hlen2
    show push_bytes ⟨true, buf ++ [b]⟩ rest out = _
    rw [hrest]
    simp

theorem push_bytes_append (st : Collector) (xs ys : List Nat) (out : List (List Nat)) :
    push_bytes st (xs ++ ys) out =
      push_bytes (push_bytes st xs out).1 ys (push_bytes st xs out).2 := by
  simp [push_bytes, List.foldl_append]

theorem stripTrailingCR_append_cr (xs : List Nat) :
    stripTrailingCR (xs ++ [13]) = stripTrailingCR xs := by
  simp [stripTrailingCR, List.dropWhile]

theorem stripTrailingCR_no_cr (xs : List Nat) (h : ∀ b ∈ xs, b ≠ 13) :
    stripTrailingCR xs = xs := by
  unfold stripTrailingCR
  cases hrev : xs.reverse with
  | nil =>
    have : xs = [] := by simpa using congrArg List.reverse hrev
    simp [this]
  | cons a as =>
    have ha : a ∈ xs := by
      rw [← List.mem_reverse, hrev]
      simp
    rw [List.dropWhile_cons, if_neg (by simp [h a ha])]
    rw [← hrev, List.reverse_reverse]

/-- C8: a capture in progress (a `$`-sentence fragment with no terminating
newline yet) followed immediately by a second `$`-prefixed sentence is
discarded: the `$` restarts the capture buffer, and only the second sentence
is emitted. -/
theorem push_bytes_restart_on_dollar (body1 body2 : List Nat)
    (h1 : ∀ b ∈ body1, is_allowed_nmea_byte b = true ∧ b ≠ 36 ∧ b ≠ 10)
    (h2 : ∀ b ∈ body2, is_allowed_nmea_byte b = true ∧ b ≠ 36 ∧ b ≠ 10 ∧ b ≠ 13)
    (hl1 : body1.length + 1 ≤ MAX_SENTENCE_LEN)
    (hl2 : body2.length + 2 ≤ MAX_SENTENCE_LEN) :
    push_bytes ⟨false, []⟩ ((36 :: body1) ++ (36 :: body2) ++ [13, 10]) [] =
      (⟨false, []⟩, [36 :: body2]) := by
  have h2' : ∀ b ∈ body2, is_allowed_nmea_byte b = true ∧ b ≠ 36 ∧ b ≠ 10 :=
    fun b hb => ⟨(h2 b hb).1, (h2 b hb).2.1, (h2 b hb).2.2.1⟩
  have s1 : push_bytes ⟨false, []⟩ (36 :: body1) [] = (⟨true, 36 :: body1⟩, []) := by
    show push_bytes ⟨false, []⟩ ([36] ++ body1) [] = _
    rw [push_bytes_append]
    have h0 : push_bytes ⟨false, []⟩ [36] [] = (⟨true, [36]⟩, []) := rfl
    rw [h0]
    show push_bytes ⟨true, [36]⟩ body1 [] = _
    rw [push_bytes_capture_accum body1 [36] [] h1 (by
      have h36len : ([36] : List Nat).length = 1 := rfl
      rw [h36len]
      omega)]
    simp
  have s2 : push_bytes ⟨true, 36 :: body1⟩ (36 :: body2) [] =
      (⟨true, 36 :: body2⟩, []) := by
    show push_bytes ⟨true, 36 :: body1⟩ ([36] ++ body2) [] = _
    rw [push_bytes_append]
    have h0 : push_bytes ⟨true, 36 :: body1⟩ [36] [] = (⟨true, [36]⟩, []) := rfl
    rw [h0]
    show push_bytes ⟨true, [36]⟩ body2 [] = _
    rw [push_bytes_capture_accum body2 [36] [] h2' (by
      have h36len : ([36] : List Nat).length = 1 := rfl
      rw [h36len]
      omega)]
    simp
  have s3 : push_bytes ⟨true, 36 :: body2⟩ [13, 10] [] =
      (⟨false, []⟩, [36 :: body2]) := by
    have hstep13 :
        collectorStep ((⟨true, 36 :: body2⟩ : Collector), ([] : List (List Nat))) 13 =
          (⟨true, (36 :: body2) ++ [13]⟩, []) := by
      apply collectorStep_capture_push
      · decide
      · decide
      · decide
      · simp only [List.length_cons]
        omega
    have hall128 : ((36 :: body2) ++ [13]).all (fun x => x < 128) = true := by
      rw [List.all_eq_true]
      intro x hx
      rw [List.mem_append] at hx
      rcases hx with hx | hx
      · rw [List.mem_cons] at hx
        rcases hx with rfl | hx
        · decide
        · simpa using allowed_byte_lt_128 (h2 x hx).1
      · rw [List.mem_singleton] at hx
        subst hx
        decide
    have hstrip : stripTrailingCR ((36 :: body2) ++ [13]) = 36 :: body2 := by
      rw [stripTrailingCR_append_cr]
      exact stripTrailingCR_no_cr _ (by
        intro b hb
        rw [List.mem_cons] at hb
        rcases hb with rfl | hb
        · decide
        · exact (h2 b hb).2.2.2)
    have hstep10 :
        collectorStep ((⟨true, (36 :: body2) ++ [13]⟩ : Collector),
            ([] : List (List Nat))) 10 =
          (⟨false, []⟩, [36 :: body2]) := by
      unfold collectorStep
      simp only [Bool.not_true, Bool.false_eq_true, if_false, hall128, if_true, hstrip]
      rfl
    show [13, 10].foldl collectorStep ((⟨true, 36 :: body2⟩ : Collector), []) = _
    rw [List.foldl_cons, hstep13, List.foldl_cons, hstep10]
    rfl
  have hassoc :
      (36 :: body1) ++ (36 :: body2) ++ [13, 10] =
        (36 :: body1) ++ ((36 :: body2) ++ [13, 10]) := by
    simp [List.append_assoc]
  rw [hassoc, push_bytes_append, s1]
  show push_bytes ⟨true, 36 :: body1⟩ ((36 :: body2) ++ [13, 10]) [] = _
  rw [push_bytes_append, s2]
  exact s3

theorem push_bytes_restart_on_dollar_witness :
    push_bytes ⟨false, []⟩
        ((36 :: [71, 78, 82, 77, 67, 44, 48, 56, 49, 56, 51, 54, 44, 65, 42, 54, 50]) ++
          (36 :: [71, 80, 71, 83, 65, 44, 65, 44, 51, 42, 52, 50]) ++ [13, 10]) [] =
      (⟨false, []⟩,
        [36 :: [71, 80, 71, 83, 65, 44, 65, 44, 51, 42, 52, 50]]) :=
  push_bytes_restart_on_dollar
    [71, 78, 82, 77, 67, 44, 48, 56, 49, 56, 51, 54, 44, 65, 42, 54, 50]
    [71, 80, 71, 83, 65, 44, 65, 44, 51, 42, 52, 50]
    (by decide) (by decide) (by decide) (by decide)

end Gnss2Tec
